import Mathlib

/-!
# StableMind v0 — verification of the core update pipeline

Shallow embedding of the StableMind v0 personality engine
(`stablemind/engines.py`, `stablemind/agent.py`, `stablemind/events.py`)
over exact rational arithmetic.  Python dicts are modelled as insertion
ordered association lists (`List (key × value)`): lookup returns the first
matching entry, in-place update rewrites the entry where it stands, and a
fresh key is appended at the end — exactly the observable behaviour of a
Python `dict`.
-/

namespace StableMind

/-- `engines.clamp`: `max(lo, min(hi, x))`. -/
def clamp (x lo hi : ℚ) : ℚ := max lo (min hi x)

/-- `engines.clamp` with its default bounds `lo = 0.0`, `hi = 1.0`. -/
def clamp01 (x : ℚ) : ℚ := clamp x 0 1

/-- Association-list lookup: first entry whose key matches (Python `d[k]` / `d.get(k)`). -/
def alookup {α β : Type} [DecidableEq α] : List (α × β) → α → Option β
  | [], _ => none
  | (k, v) :: rest, key => if k = key then some v else alookup rest key

/-- Python `d[k] = v`: overwrite the entry in place if the key is present,
append `(k, v)` otherwise.  (Keys of a Python dict are unique, so replacing
the first matching entry is exact.) -/
def aset {α β : Type} [DecidableEq α] : List (α × β) → α → β → List (α × β)
  | [], k, v => [(k, v)]
  | (k', v') :: rest, k, v =>
      if k' = k then (k, v) :: rest else (k', v') :: aset rest k v

/-- Every value of the vector lies in `[0,1]`. -/
def entriesIn01 (m : List (String × ℚ)) : Prop := ∀ p ∈ m, 0 ≤ p.2 ∧ p.2 ≤ 1

/-- Every value of the vector sits at the neutral point `0.5`. -/
def allNeutral (m : List (String × ℚ)) : Prop := ∀ p ∈ m, p.2 = 1/2

-- =====================================================
-- Emotion Engine (`engines.EmotionEngine.update`)
-- =====================================================

/-- The neutral rest point of every emotion dimension. -/
def neutral : ℚ := 1/2

/-- One `(emotion, delta)` application: `emotion[emo] = clamp(emotion.get(emo, 0.5) + d)`. -/
def applyDelta (em : List (String × ℚ)) (p : String × ℚ) : List (String × ℚ) :=
  aset em p.1 (clamp01 ((alookup em p.1).getD (1/2) + p.2))

/-- `EmotionEngine.update`: decay every dimension toward the neutral point `0.5`
by the configured factor, then add the delta of every detected event that has a
row in the `event_emotion` table, clamping to `[0,1]` after each addition. -/
def emotionUpdate (emotion : List (String × ℚ)) (events : List String)
    (deltas : List (String × List (String × ℚ))) (decay : ℚ) : List (String × ℚ) :=
  let decayed := emotion.map (fun p => (p.1, clamp01 (neutral + (p.2 - neutral) * decay)))
  events.foldl
    (fun em ev =>
      match alookup deltas ev with
      | none => em
      | some ds => ds.foldl applyDelta em)
    decayed

-- =====================================================
-- Trait Engine (`engines.TraitEngine.apply_emotion_nudges`)
-- =====================================================

/-- `delta = Σ w * (emotion.get(emo, 0.5) - 0.5)` over one coefficient row. -/
def deltaSum (emotion : List (String × ℚ)) (weights : List (String × ℚ)) : ℚ :=
  weights.foldl (fun acc p => acc + p.2 * ((alookup emotion p.1).getD (1/2) - 1/2)) 0

/-- First loop of `apply_emotion_nudges`: apply the capped emotion-driven delta
to every trait that has a coefficient row and is present in both `baseline`
and the working vector. -/
def nudgeDeltaPhase (baseline emotion : List (String × ℚ))
    (coeffs : List (String × List (String × ℚ))) (cap : ℚ)
    (current : List (String × ℚ)) : List (String × ℚ) :=
  coeffs.foldl
    (fun upd row =>
      match alookup baseline row.1, alookup upd row.1 with
      | some _, some cur =>
          aset upd row.1 (clamp01 (cur + clamp (deltaSum emotion row.2) (-cap) cap))
      | _, _ => upd)
    current

/-- Second loop of `apply_emotion_nudges`: pull every trait that has a baseline
back toward it, `updated[trait] = clamp(baseline + (updated[trait] - baseline) * r)`. -/
def revertPhase (baseline : List (String × ℚ)) (r : ℚ)
    (updated : List (String × ℚ)) : List (String × ℚ) :=
  updated.map (fun p =>
    match alookup baseline p.1 with
    | none => p
    | some b => (p.1, clamp01 (b + (p.2 - b) * r)))

/-- `TraitEngine.apply_emotion_nudges`. -/
def applyEmotionNudges (baseline current emotion : List (String × ℚ))
    (coeffs : List (String × List (String × ℚ))) (cap r : ℚ) : List (String × ℚ) :=
  revertPhase baseline r (nudgeDeltaPhase baseline emotion coeffs cap current)

-- =====================================================
-- Turn counters (`agent.StableMindAgent.step`, lines 52-54 and 97-109)
-- =====================================================

structure Counters where
  current_turn : ℤ
  turns_since_last_rumination : ℤ
  rumination_window_size : ℤ
  last_rumination_turn : ℤ
deriving DecidableEq

/-- The counter logic of one `StableMindAgent.step`: increment `current_turn`
and `turns_since_last_rumination`, then fire rumination when
`turns_since_last_rumination >= rumination_window_size`, resetting the counter
and stamping `last_rumination_turn`.  The boolean is `rumination_ran`. -/
def stepCounters (c : Counters) : Counters × Bool :=
  let c' := { c with
    current_turn := c.current_turn + 1,
    turns_since_last_rumination := c.turns_since_last_rumination + 1 }
  if c'.rumination_window_size ≤ c'.turns_since_last_rumination then
    ({ c' with turns_since_last_rumination := 0, last_rumination_turn := c'.current_turn }, true)
  else
    (c', false)

-- =====================================================
-- Rumination Engine (`engines.RuminationEngine.run`)
-- =====================================================

/-- A belief observation as appended by the agent
(`memory.append_belief_observation`): `{entity, dimension, value, evidence_text}`
plus the turn stamp handled by the window read. -/
structure Obs where
  entity : String
  dimension : String
  value : ℚ
  evidence_text : String
deriving DecidableEq

/-- A stable belief (`persona.stable.stable_beliefs.places` entry). -/
structure Belief where
  entity : String
  dimension : String
  mean : ℚ
  confidence : ℚ
  last_updated_turn : ℤ
  support_count_window : ℕ
  contradict_count_window : ℕ
  window_size : ℕ
deriving DecidableEq

/-- The consolidation policy (`rules.update_policy.stable_baseline_update`). -/
structure Policy where
  min_contradict_count : ℕ
  min_contradict_rate : ℚ
  smoothing_alpha : ℚ
deriving DecidableEq

/-- Python `str.lower` restricted to the ASCII range (all repository data is ASCII). -/
def lowerStr (s : String) : String := String.mk (s.data.map Char.toLower)

/-- `entity.lower().replace(' ', '_')`. -/
def underscoreSpaces (s : String) : String :=
  String.mk (s.data.map (fun c => if c = ' ' then '_' else c))

/-- `belief_key = f"{entity.lower().replace(' ', '_')}_{dimension}"`. -/
def beliefKey (entity dimension : String) : String :=
  underscoreSpaces (lowerStr entity) ++ "_" ++ dimension

/-- `groups.setdefault((entity, dimension), []).append(b)`. -/
def addObsToGroups (gs : List ((String × String) × List Obs)) (k : String × String)
    (o : Obs) : List ((String × String) × List Obs) :=
  match alookup gs k with
  | some l => aset gs k (l ++ [o])
  | none => gs ++ [(k, [o])]

/-- One step of the grouping loop: an observation with a falsy (empty) entity
or dimension is dropped, the rest are grouped under `(entity, dimension)`. -/
def groupStep (gs : List ((String × String) × List Obs)) (o : Obs) :
    List ((String × String) × List Obs) :=
  if o.entity = "" ∨ o.dimension = "" then gs
  else addObsToGroups gs (o.entity, o.dimension) o

/-- Grouping loop of `RuminationEngine.run`: observations with a falsy (empty)
entity or dimension are dropped; the rest are grouped by `(entity, dimension)`
in first-appearance order. -/
def groupObs (obs : List Obs) : List ((String × String) × List Obs) :=
  obs.foldl groupStep []

/-- The window observations carrying a given `(entity, dimension)` pair. -/
def obsFilter (obs : List Obs) (e d : String) : List Obs :=
  obs.filter (fun o => decide (o.entity = e ∧ o.dimension = d))

/-- `MIN_OBS_TO_CREATE = 2`. -/
def MIN_OBS_TO_CREATE : ℕ := 2

/-- The belief freshly created for a group: `mean` is the clamped arithmetic
mean of the observed values, `confidence` the fixed initial `0.6`, and the
evidence counts come from the group size. -/
def mkBelief (entity dimension : String) (values : List ℚ) (turn : ℤ) : Belief where
  entity := entity
  dimension := dimension
  mean := clamp01 (values.sum / (values.length : ℚ))
  confidence := 6/10
  last_updated_turn := turn
  support_count_window := values.length
  contradict_count_window := 0
  window_size := values.length

/-- Creation phase (phase 1) of `RuminationEngine.run`: walk the groups in
order; skip a group whose belief key already exists or that holds fewer than
`MIN_OBS_TO_CREATE` observations (or no values at all); otherwise insert the
new belief under its key. -/
def createBeliefs (places : List (String × Belief))
    (gs : List ((String × String) × List Obs)) (turn : ℤ) : List (String × Belief) :=
  gs.foldl
    (fun pl g =>
      let key := beliefKey g.1.1 g.1.2
      if (alookup pl key).isSome then pl
      else if g.2.length < MIN_OBS_TO_CREATE then pl
      else if g.2.map Obs.value = [] then pl
      else pl ++ [(key, mkBelief g.1.1 g.1.2 (g.2.map Obs.value) turn)])
    places

/-- `sum(1 for v in values if abs(v - old_mean) > 0.3)`. -/
def contradictCount (values : List ℚ) (mean : ℚ) : ℕ :=
  values.countP (fun v => decide (3/10 < |v - mean|))

/-- The hysteresis test of the update phase: the absolute contradiction count
and the contradiction rate must clear their thresholds simultaneously. -/
def contradictionTriggered (policy : Policy) (values : List ℚ) (mean : ℚ) : Prop :=
  policy.min_contradict_count ≤ contradictCount values mean ∧
    policy.min_contradict_rate ≤ (contradictCount values mean : ℚ) / (values.length : ℚ)

instance (policy : Policy) (values : List ℚ) (mean : ℚ) :
    Decidable (contradictionTriggered policy values mean) := by
  unfold contradictionTriggered; infer_instance

/-- The window observations matching a belief's `(entity, dimension)`. -/
def relevantObs (belief_obs : List Obs) (b : Belief) : List Obs :=
  belief_obs.filter (fun o => decide (o.entity = b.entity ∧ o.dimension = b.dimension))

/-- Update phase (phase 2) of `RuminationEngine.run`, for one belief: gather
the window observations matching its `(entity, dimension)`; if none, leave it
untouched; if the contradiction thresholds are both met, blend the mean by
`smoothing_alpha` toward the observed mean, drop confidence by `0.05` and stamp
the turn; otherwise raise confidence by `0.02`. -/
def updateBelief (policy : Policy) (belief_obs : List Obs) (turn : ℤ) (b : Belief) : Belief :=
  let relevant := relevantObs belief_obs b
  if relevant = [] then b
  else
    let values := relevant.map Obs.value
    let obs_mean := values.sum / (values.length : ℚ)
    if contradictionTriggered policy values b.mean then
      { b with
        mean := clamp01 (b.mean * (1 - policy.smoothing_alpha) + obs_mean * policy.smoothing_alpha),
        confidence := clamp01 (b.confidence - 5/100),
        last_updated_turn := turn }
    else
      { b with confidence := clamp01 (b.confidence + 2/100) }

/-- The `trait_vector` block of `state/vectors.json`. -/
structure TraitVec where
  baseline : List (String × ℚ)
  current : List (String × ℚ)
  initial_baseline : Option (List (String × ℚ))

/-- Squared drift: `sum((baseline[k] - initial[k]) ** 2 for k in baseline)`. -/
def driftSqSum (baseline initial : List (String × ℚ)) : ℚ :=
  (baseline.map (fun p => (p.2 - ((alookup initial p.1).getD 0)) ^ 2)).sum

/-- The result of one consolidation run: the mutated belief dict, the
`initial_baseline` after the `setdefault`, and the squared drift. -/
structure RumResult where
  places : List (String × Belief)
  initial_baseline : List (String × ℚ)
  driftSq : ℚ

/-- `RuminationEngine.run` over the window observations: creation phase,
update phase over every belief now present (including the ones just created),
then the drift metric with `initial_baseline` captured on first use. -/
def ruminationRun (policy : Policy) (places : List (String × Belief))
    (belief_obs : List Obs) (tv : TraitVec) (turn : ℤ) : RumResult :=
  let places1 := createBeliefs places (groupObs belief_obs) turn
  let places2 := places1.map (fun p => (p.1, updateBelief policy belief_obs turn p.2))
  let initial := tv.initial_baseline.getD tv.baseline
  { places := places2
    initial_baseline := initial
    driftSq := driftSqSum tv.baseline initial }

/-- `drift_l2 = sum(...) ** 0.5`: the square root is taken in `ℝ`. -/
noncomputable def runDriftL2 (policy : Policy) (places : List (String × Belief))
    (belief_obs : List Obs) (tv : TraitVec) (turn : ℤ) : ℝ :=
  Real.sqrt ((ruminationRun policy places belief_obs tv turn).driftSq : ℝ)

/-- Modelled from the spec (§4.4/§8): "the Euclidean distance between current
`baseline` and `initial_baseline` across all traits", to compare with the
drift metric the code computes. -/
noncomputable def euclideanDistance (baseline initial : List (String × ℚ)) : ℝ :=
  Real.sqrt (((baseline.map (fun p => (p.2 - ((alookup initial p.1).getD 0)) ^ 2)).sum : ℚ))

-- =====================================================
-- Signal Extractor (`events.EventExtractor.extract`)
-- =====================================================

/-- `needle in haystack` over char lists (Python `str.__contains__`). -/
def isSubChars : List Char → List Char → Bool
  | needle, [] => needle.isEmpty
  | needle, c :: rest => needle.isPrefixOf (c :: rest) || isSubChars needle rest

/-- Python's substring test `k in text`. -/
def containsSub (needle hay : String) : Bool := isSubChars needle.data hay.data

/-- `any(k in text for k in kws)`. -/
def anyKw (kws : List String) (text : String) : Bool := kws.any (fun k => containsSub k text)

/-- A character matched by the token pattern `[a-z0-9'’-]+` (the text is
already lower-cased when it is tokenized). -/
def isTokChar (c : Char) : Bool :=
  ('a' ≤ c && c ≤ 'z') || ('0' ≤ c && c ≤ '9') ||
    c = Char.ofNat 39 || c = Char.ofNat 8217 || c = '-'

/-- Maximal runs of token characters, i.e. `re.findall(r"[a-z0-9'’-]+", text)`.
The accumulator holds the current run reversed. -/
def tokenizeAux : List Char → List Char → List String
  | [], cur => if cur.isEmpty then [] else [String.mk cur.reverse]
  | c :: rest, cur =>
      if isTokChar c then tokenizeAux rest (c :: cur)
      else if cur.isEmpty then tokenizeAux rest []
      else String.mk cur.reverse :: tokenizeAux rest []

def tokenize (text : String) : List String := tokenizeAux text.data []

/-- Python `str.title`: upper-case every cased character that follows a
non-alphabetic character, lower-case the others.  The flag records whether the
previous character was alphabetic. -/
def titleAux : Bool → List Char → List Char
  | _, [] => []
  | prevAlpha, c :: rest =>
      (if c.isAlpha && !prevAlpha then c.toUpper
       else if c.isAlpha && prevAlpha then c.toLower
       else c) :: titleAux c.isAlpha rest

def titleCase (s : String) : String := String.mk (titleAux false s.data)

/-- The `"<token> cafe"` scan: enumerate the tokens and remember, for every
`"cafe"` token with a predecessor, the title-cased `"<predecessor> cafe"`.
The last match wins, as in the Python loop. -/
def cafeScanAux : Option String → List String → Option String
  | acc, [] => acc
  | acc, [_] => acc
  | acc, a :: b :: rest =>
      if b = "cafe" then cafeScanAux (some (titleCase (a ++ " cafe"))) (b :: rest)
      else cafeScanAux acc (b :: rest)

def cafeScan (tokens : List String) : Option String := cafeScanAux none tokens

/-- First-occurrence de-duplication, Python `list(dict.fromkeys(xs))`. -/
def dedupFirst (seen : List String) : List String → List String
  | [] => []
  | x :: xs => if x ∈ seen then dedupFirst seen xs else x :: dedupFirst (x :: seen) xs

/-- The context handed to the extractor; only `last_entity_focus` is read. -/
structure Context where
  last_entity_focus : Option String

/-- The extractor result. -/
structure Extracted where
  events : List String
  entities : List String
  belief_observations : List Obs
  notes : String
  focused_entity : Option String
deriving DecidableEq

def deixisMarkers : List String := ["there", "it", "that place", "this place", "here"]

def noisyCues : List String := ["loud", "noisy", "music", "chaos", "chaotic", "blasting"]

def quietCues : List String := ["quiet", "calm", "peaceful", "silent"]

/-- The built-in keyword heuristics of `EventExtractor.extract`, in source
order.  (`"can't do this"` is spelled with an escaped apostrophe.) -/
def builtinEventRules : List (List String × String) :=
  [ (["congrats", "i did it", "won", "achieved", "got accepted", "promotion", "award"],
      "major_achievement"),
    (["rejected", "ignored", "left me", "they hate", "go away", "stop texting"],
      "social_rejection"),
    (["betray", "betrayed", "lied to me", "you lied", "backstab", "broke my trust"],
      "betrayal"),
    (["argue", "argument", "fight", "conflict", "confrontation"], "conflict"),
    (["burnout", "burned out", "burnt out", "exhausted", "can\x27t do this"],
      "burnout_episode"),
    (["good job", "love this", "amazing", "praised", "compliment", "positive feedback"],
      "feedback_positive"),
    (["this sucks", "bad feedback", "cringe", "hate it", "criticized", "negative feedback"],
      "feedback_negative") ]

/-- `EventExtractor.extract`.  The taxonomy (normally loaded from
`rules/event_taxonomy.json`, empty when the file is missing) is passed as a
list of `(event_type, keywords)` rows. -/
def extract (user_message : String) (context : Context)
    (taxonomy : List (String × List String)) : Extracted :=
  let text := lowerStr user_message
  let events :=
    (builtinEventRules.foldl
      (fun acc rule => if anyKw rule.1 text then acc ++ [rule.2] else acc) []) ++
    (taxonomy.foldl
      (fun acc row =>
        let kws := row.2.map lowerStr
        if !kws.isEmpty && anyKw kws text then acc ++ [row.1] else acc) [])
  let focused_entity :=
    match cafeScan (tokenize text) with
    | some e => some e
    | none =>
        if anyKw deixisMarkers text then context.last_entity_focus else none
  let entities := match focused_entity with
    | some e => [e]
    | none => []
  let obsAndNotes : List Obs × String :=
    match focused_entity with
    | none => ([], "")
    | some e =>
        if anyKw noisyCues text then
          ([⟨e, "noise_level", 8/10, user_message⟩], e ++ " was noisy/loud.")
        else if anyKw quietCues text then
          ([⟨e, "noise_level", 2/10, user_message⟩], e ++ " was quiet/calm.")
        else ([], "")
  { events := dedupFirst [] events
    entities := dedupFirst [] entities
    belief_observations := obsAndNotes.1
    notes := obsAndNotes.2
    focused_entity := focused_entity }

-- =====================================================
-- One full no-event turn (`agent.step` with no detected events):
-- emotion decay followed by the trait nudge against the new emotion vector.
-- =====================================================

def turnNoEvents (baseline : List (String × ℚ))
    (coeffs : List (String × List (String × ℚ)))
    (deltas : List (String × List (String × ℚ))) (cap r decay : ℚ)
    (st : List (String × ℚ) × List (String × ℚ)) :
    List (String × ℚ) × List (String × ℚ) :=
  let em := emotionUpdate st.1 [] deltas decay
  (em, applyEmotionNudges baseline st.2 em coeffs cap r)

-- =====================================================
-- Basic lemmas about clamp and association lists
-- =====================================================

theorem clamp01_nonneg (x : ℚ) : 0 ≤ clamp01 x := le_max_left _ _

theorem clamp01_le_one (x : ℚ) : clamp01 x ≤ 1 := by
  unfold clamp01 clamp
  rcases le_total (min 1 x) 0 with h | h
  · rw [max_eq_left h]; exact zero_le_one
  · simp [max_eq_right h, min_le_left]

theorem clamp01_of_mem (x : ℚ) (h0 : 0 ≤ x) (h1 : x ≤ 1) : clamp01 x = x := by
  unfold clamp01 clamp
  rw [min_eq_right h1, max_eq_right h0]

/-- Clamping to `[0,1]` never moves a value away from a point of `[0,1]`. -/
theorem abs_clamp01_sub_le (x b : ℚ) (hb0 : 0 ≤ b) (hb1 : b ≤ 1) :
    |clamp01 x - b| ≤ |x - b| := by
  unfold clamp01 clamp
  rcases le_total x 0 with hx | hx
  · rw [min_eq_right (hx.trans zero_le_one), max_eq_left hx]
    rw [abs_of_nonpos (by linarith), abs_of_nonpos (by linarith)]
    linarith
  · rcases le_total x 1 with hx1 | hx1
    · rw [min_eq_right hx1, max_eq_right hx]
    · rw [min_eq_left hx1, max_eq_right zero_le_one]
      rw [abs_of_nonneg (by linarith), abs_of_nonneg (by linarith)]
      linarith

theorem alookup_mem {α β : Type} [DecidableEq α] {m : List (α × β)} {k : α} {v : β}
    (h : alookup m k = some v) : (k, v) ∈ m := by
  induction m with
  | nil => simp [alookup] at h
  | cons p rest ih =>
    obtain ⟨k', v'⟩ := p
    by_cases hk : k' = k
    · subst hk
      simp [alookup] at h
      simp [h]
    · simp [alookup, hk] at h
      exact List.mem_cons_of_mem _ (ih h)

theorem alookup_append {α β : Type} [DecidableEq α] (xs ys : List (α × β)) (k : α) :
    alookup (xs ++ ys) k =
      match alookup xs k with
      | some v => some v
      | none => alookup ys k := by
  induction xs with
  | nil => simp [alookup]
  | cons p rest ih =>
    by_cases hk : p.1 = k
    · simp [alookup, hk]
    · simpa [alookup, hk] using ih

theorem alookup_aset_self {α β : Type} [DecidableEq α] (m : List (α × β)) (k : α) (v : β) :
    alookup (aset m k v) k = some v := by
  induction m with
  | nil => simp [aset, alookup]
  | cons p rest ih =>
    obtain ⟨k', v'⟩ := p
    by_cases hk : k' = k
    · simp [aset, hk, alookup]
    · simp [aset, hk, alookup, ih]

theorem alookup_aset_ne {α β : Type} [DecidableEq α] (m : List (α × β)) (k t : α) (v : β)
    (hne : k ≠ t) : alookup (aset m k v) t = alookup m t := by
  induction m with
  | nil => simp [aset, alookup, hne]
  | cons p rest ih =>
    obtain ⟨k', v'⟩ := p
    by_cases hk : k' = k
    · subst hk
      simp [aset, alookup, hne]
    · by_cases ht : k' = t
      · have hne' : ¬t = k := fun h => hne h.symm
        subst ht
        simp [aset, alookup, hne']
      · simp [aset, hk, alookup, ht, ih]

/-- If the key is already bound and rebound to the same value, every lookup is unchanged. -/
theorem alookup_aset_of_eq {α β : Type} [DecidableEq α] (m : List (α × β)) (k : α) (v : β)
    (hk : alookup m k = some v) (t : α) : alookup (aset m k v) t = alookup m t := by
  by_cases ht : k = t
  · subst ht
    rw [alookup_aset_self, hk]
  · exact alookup_aset_ne m k t v ht

theorem mem_aset {α β : Type} [DecidableEq α] {m : List (α × β)} {k : α} {v : β} {p : α × β}
    (hp : p ∈ aset m k v) : p ∈ m ∨ p = (k, v) := by
  induction m with
  | nil => simp [aset] at hp; simp [hp]
  | cons q rest ih =>
    obtain ⟨k', v'⟩ := q
    by_cases hk : k' = k
    · simp only [aset, hk, if_true] at hp
      rcases List.mem_cons.mp hp with h' | h'
      · exact Or.inr h'
      · exact Or.inl (List.mem_cons_of_mem _ h')
    · simp only [aset, hk, if_false] at hp
      rcases List.mem_cons.mp hp with h' | h'
      · exact Or.inl (by simp [h'])
      · rcases ih h' with h'' | h''
        · exact Or.inl (List.mem_cons_of_mem _ h'')
        · exact Or.inr h''

/-- Fold invariant helper. -/
theorem foldl_inv {α β : Type} (P : β → Prop) (f : β → α → β) (l : List α) (init : β)
    (h0 : P init) (hstep : ∀ b a, a ∈ l → P b → P (f b a)) : P (l.foldl f init) := by
  induction l generalizing init with
  | nil => exact h0
  | cons x xs ih =>
    exact ih (f init x) (hstep init x (by simp) h0)
      (fun b a ha hb => hstep b a (by simp [ha]) hb)

-- =====================================================
-- C1: emotion vector stays in [0,1]
-- =====================================================

theorem entriesIn01_applyDelta {em : List (String × ℚ)} (h : entriesIn01 em)
    (p : String × ℚ) : entriesIn01 (applyDelta em p) := by
  intro q hq
  rcases mem_aset hq with h' | h'
  · exact h q h'
  · subst h'
    exact ⟨clamp01_nonneg _, clamp01_le_one _⟩

/-- C1: for every input emotion vector with components in `[0,1]`, every event
list and every event-emotion delta table, each component of the vector returned
by `EmotionEngine.update` lies in `[0,1]`.  (The decay step clamps every
dimension and each event delta is clamped as it is applied.) -/
theorem emotionUpdate_range (emotion : List (String × ℚ)) (events : List String)
    (deltas : List (String × List (String × ℚ))) (decay : ℚ)
    (_h : entriesIn01 emotion) :
    entriesIn01 (emotionUpdate emotion events deltas decay) := by
  unfold emotionUpdate
  apply foldl_inv entriesIn01
  · intro p hp
    obtain ⟨q, _, hq⟩ := List.mem_map.mp hp
    rw [← hq]
    exact ⟨clamp01_nonneg _, clamp01_le_one _⟩
  · intro em ev _ hem
    cases alookup deltas ev with
    | none => exact hem
    | some ds =>
        exact foldl_inv entriesIn01 applyDelta ds em hem
          (fun em' p _ hem' => entriesIn01_applyDelta hem' p)

/-- Witness for C1 at a concrete input. -/
theorem emotionUpdate_range_witness :
    entriesIn01 [("joy", (1:ℚ)), ("fear", 0)] ∧
      entriesIn01 (emotionUpdate [("joy", (1:ℚ)), ("fear", 0)] ["major_achievement"]
        [("major_achievement", [("joy", 2), ("calmness", -3)])] (3/4)) := by
  have h : entriesIn01 [("joy", (1:ℚ)), ("fear", 0)] := by
    intro p hp
    rcases List.mem_cons.mp hp with h' | h'
    · simp [h']
    · simp at h'
      simp [h']
  exact ⟨h, emotionUpdate_range _ _ _ _ h⟩

-- =====================================================
-- C2: rumination firing condition and counter reset
-- =====================================================

/-- C2: in a turn whose loaded counter satisfies the session invariant
`0 ≤ turns_since_last_rumination < rumination_window_size` (true from the reset
state on, see the last conjunct), rumination fires iff the incremented counter
equals the window size; on firing the counter resets to `0` and
`last_rumination_turn` is stamped with the new current turn; otherwise the
counter keeps its incremented value and `last_rumination_turn` is untouched. -/
theorem stepCounters_fires_iff (c : Counters)
    (h0 : 0 ≤ c.turns_since_last_rumination)
    (hlt : c.turns_since_last_rumination < c.rumination_window_size) :
    ((stepCounters c).2 = true ↔
        c.turns_since_last_rumination + 1 = c.rumination_window_size) ∧
      (stepCounters c).1.current_turn = c.current_turn + 1 ∧
      (stepCounters c).1.rumination_window_size = c.rumination_window_size ∧
      ((stepCounters c).2 = true →
        (stepCounters c).1.turns_since_last_rumination = 0 ∧
          (stepCounters c).1.last_rumination_turn = c.current_turn + 1) ∧
      ((stepCounters c).2 = false →
        (stepCounters c).1.turns_since_last_rumination =
            c.turns_since_last_rumination + 1 ∧
          (stepCounters c).1.turns_since_last_rumination ≠ 0 ∧
          (stepCounters c).1.last_rumination_turn = c.last_rumination_turn) ∧
      (1 ≤ c.rumination_window_size →
        0 ≤ (stepCounters c).1.turns_since_last_rumination ∧
          (stepCounters c).1.turns_since_last_rumination < c.rumination_window_size) := by
  by_cases hfire : c.rumination_window_size ≤ c.turns_since_last_rumination + 1 <;>
    simp [stepCounters, hfire] <;> omega

/-- Witness for C2: the 20th turn of a fresh session with window size 20. -/
theorem stepCounters_fires_iff_witness :
    ((0:ℤ) ≤ 19 ∧ (19:ℤ) < 20) ∧
      (((stepCounters ⟨19, 19, 20, 0⟩).2 = true ↔ (19:ℤ) + 1 = 20) ∧
        (stepCounters ⟨19, 19, 20, 0⟩).1.current_turn = 19 + 1 ∧
        (stepCounters ⟨19, 19, 20, 0⟩).1.rumination_window_size = 20 ∧
        ((stepCounters ⟨19, 19, 20, 0⟩).2 = true →
          (stepCounters ⟨19, 19, 20, 0⟩).1.turns_since_last_rumination = 0 ∧
            (stepCounters ⟨19, 19, 20, 0⟩).1.last_rumination_turn = 19 + 1) ∧
        ((stepCounters ⟨19, 19, 20, 0⟩).2 = false →
          (stepCounters ⟨19, 19, 20, 0⟩).1.turns_since_last_rumination = 19 + 1 ∧
            (stepCounters ⟨19, 19, 20, 0⟩).1.turns_since_last_rumination ≠ 0 ∧
            (stepCounters ⟨19, 19, 20, 0⟩).1.last_rumination_turn = 0) ∧
        ((1:ℤ) ≤ 20 →
          0 ≤ (stepCounters ⟨19, 19, 20, 0⟩).1.turns_since_last_rumination ∧
            (stepCounters ⟨19, 19, 20, 0⟩).1.turns_since_last_rumination < 20)) :=
  ⟨⟨by decide, by decide⟩, stepCounters_fires_iff ⟨19, 19, 20, 0⟩ (by decide) (by decide)⟩

-- =====================================================
-- Trait engine lemmas (C5, C6)
-- =====================================================

theorem alookup_revertPhase (baseline : List (String × ℚ)) (r : ℚ)
    (updated : List (String × ℚ)) (t : String) :
    alookup (revertPhase baseline r updated) t =
      (alookup updated t).map (fun v =>
        match alookup baseline t with
        | none => v
        | some b => clamp01 (b + (v - b) * r)) := by
  induction updated with
  | nil => simp [revertPhase, alookup]
  | cons p rest ih =>
    obtain ⟨k', v'⟩ := p
    by_cases ht : k' = t
    · subst ht
      cases hb : alookup baseline k' <;>
        simp [revertPhase, alookup, hb]
    · cases hb : alookup baseline k' <;>
        simpa [revertPhase, alookup, ht, hb] using ih

theorem nudgeDeltaPhase_nocoeff (baseline emotion : List (String × ℚ))
    (coeffs : List (String × List (String × ℚ))) (cap : ℚ)
    (current : List (String × ℚ)) (t : String)
    (hno : alookup coeffs t = none) :
    alookup (nudgeDeltaPhase baseline emotion coeffs cap current) t = alookup current t := by
  induction coeffs generalizing current with
  | nil => simp [nudgeDeltaPhase]
  | cons row rows ih =>
    obtain ⟨trait, weights⟩ := row
    by_cases htr : trait = t
    · simp [alookup, htr] at hno
    · have h2 : alookup rows t = none := by simpa [alookup, htr] using hno
      have hstep : nudgeDeltaPhase baseline emotion ((trait, weights) :: rows) cap current =
          nudgeDeltaPhase baseline emotion rows cap
            (match alookup baseline trait, alookup current trait with
             | some _, some cur =>
                 aset current trait (clamp01 (cur + clamp (deltaSum emotion weights) (-cap) cap))
             | _, _ => current) := rfl
      rw [hstep]
      cases hb : alookup baseline trait <;> cases hc : alookup current trait <;>
        simp only [hb, hc] <;>
        first
        | exact ih _ h2
        | rw [ih _ h2, alookup_aset_ne _ _ _ _ htr]

-- =====================================================
-- C6: the reversion step runs for every trait, coefficient row or not
-- =====================================================

/-- C6: the reversion step of `TraitEngine.apply_emotion_nudges` applies
`current = clamp(baseline + (current - baseline) * r)` to every trait of the
current vector that has a baseline; for a trait with no coefficient row the
delta loop leaves it untouched, so the reversion acts on its original current
value. -/
theorem applyEmotionNudges_reverts_uncoeffed (baseline current emotion : List (String × ℚ))
    (coeffs : List (String × List (String × ℚ))) (cap r : ℚ) (t : String) (bv cv : ℚ)
    (hb : alookup baseline t = some bv) (hc : alookup current t = some cv)
    (hno : alookup coeffs t = none) :
    alookup (applyEmotionNudges baseline current emotion coeffs cap r) t =
      some (clamp01 (bv + (cv - bv) * r)) := by
  unfold applyEmotionNudges
  rw [alookup_revertPhase, nudgeDeltaPhase_nocoeff _ _ _ _ _ _ hno, hc, hb]
  rfl

/-- Witness for C6: a trait with a baseline entry but no coefficient row. -/
theorem applyEmotionNudges_reverts_uncoeffed_witness :
    alookup [("warmth", (1:ℚ)/2)] "warmth" = some (1/2) ∧
      alookup [("warmth", (1:ℚ))] "warmth" = some 1 ∧
      alookup ([] : List (String × List (String × ℚ))) "warmth" = none ∧
      alookup (applyEmotionNudges [("warmth", (1:ℚ)/2)] [("warmth", 1)] [("joy", 1)]
          [] (1/20) (17/20)) "warmth" =
        some (clamp01 (1/2 + (1 - 1/2) * (17/20))) :=
  ⟨rfl, rfl, rfl,
    applyEmotionNudges_reverts_uncoeffed _ _ _ _ _ _ _ _ _ rfl rfl rfl⟩

-- =====================================================
-- C5 machinery: turns with no events and a neutral emotion vector
-- =====================================================

theorem getD_neutral {em : List (String × ℚ)} (h : allNeutral em) (emo : String) :
    (alookup em emo).getD (1/2) = 1/2 := by
  cases hl : alookup em emo with
  | none => rfl
  | some v => simpa using h _ (alookup_mem hl)

theorem deltaSum_neutral {em : List (String × ℚ)} (h : allNeutral em)
    (weights : List (String × ℚ)) : deltaSum em weights = 0 := by
  unfold deltaSum
  have : ∀ (ws : List (String × ℚ)) (acc : ℚ),
      ws.foldl (fun acc p => acc + p.2 * ((alookup em p.1).getD (1/2) - 1/2)) acc = acc := by
    intro ws
    induction ws with
    | nil => intro acc; rfl
    | cons w ws ih =>
      intro acc
      rw [List.foldl_cons, getD_neutral h]
      simpa using ih acc
  exact this weights 0

theorem clamp_zero_of_cap {cap : ℚ} (h : 0 ≤ cap) : clamp 0 (-cap) cap = 0 := by
  unfold clamp
  rw [min_eq_right h, max_eq_right (neg_nonpos_of_nonneg h)]

theorem clamp01_half : clamp01 (1/2) = 1/2 :=
  clamp01_of_mem _ (by norm_num) (by norm_num)

/-- With a fully neutral emotion vector the delta loop leaves the working trait
vector unchanged (same lookups, values still in `[0,1]`). -/
theorem nudgeDeltaPhase_neutral (baseline em : List (String × ℚ))
    (coeffs : List (String × List (String × ℚ))) (cap : ℚ)
    (current : List (String × ℚ)) (hem : allNeutral em) (hcap : 0 ≤ cap)
    (hcur : entriesIn01 current) :
    (∀ t, alookup (nudgeDeltaPhase baseline em coeffs cap current) t = alookup current t) ∧
      entriesIn01 (nudgeDeltaPhase baseline em coeffs cap current) := by
  induction coeffs generalizing current with
  | nil => exact ⟨fun _ => rfl, hcur⟩
  | cons row rows ih =>
    obtain ⟨trait, weights⟩ := row
    have hstep : nudgeDeltaPhase baseline em ((trait, weights) :: rows) cap current =
        nudgeDeltaPhase baseline em rows cap
          (match alookup baseline trait, alookup current trait with
           | some _, some cur =>
               aset current trait (clamp01 (cur + clamp (deltaSum em weights) (-cap) cap))
           | _, _ => current) := rfl
    rw [hstep]
    cases hb : alookup baseline trait <;> cases hc : alookup current trait <;>
      simp only [hb, hc]
    · exact ih current hcur
    · exact ih current hcur
    · exact ih current hcur
    · rename_i cur
      have hcur01 : 0 ≤ cur ∧ cur ≤ 1 := hcur _ (alookup_mem hc)
      have hval : clamp01 (cur + clamp (deltaSum em weights) (-cap) cap) = cur := by
        rw [deltaSum_neutral hem, clamp_zero_of_cap hcap, add_zero,
          clamp01_of_mem _ hcur01.1 hcur01.2]
      rw [hval]
      have hset : ∀ t, alookup (aset current trait cur) t = alookup current t :=
        alookup_aset_of_eq current trait cur hc
      have hset01 : entriesIn01 (aset current trait cur) := by
        intro p hp
        rcases mem_aset hp with h' | h'
        · exact hcur _ h'
        · subst h'; exact hcur01
      obtain ⟨ihl, ihe⟩ := ih (aset current trait cur) hset01
      exact ⟨fun t => (ihl t).trans (hset t), ihe⟩

/-- One no-event turn keeps the emotion vector neutral and the trait vector in
`[0,1]`. -/
theorem turnNoEvents_inv (baseline : List (String × ℚ))
    (coeffs : List (String × List (String × ℚ)))
    (deltas : List (String × List (String × ℚ))) (cap r decay : ℚ)
    (st : List (String × ℚ) × List (String × ℚ))
    (hem : allNeutral st.1) (hcur : entriesIn01 st.2) (hcap : 0 ≤ cap) :
    allNeutral (turnNoEvents baseline coeffs deltas cap r decay st).1 ∧
      entriesIn01 (turnNoEvents baseline coeffs deltas cap r decay st).2 := by
  have hem' : allNeutral (emotionUpdate st.1 [] deltas decay) := by
    intro p hp
    simp only [emotionUpdate, List.foldl_nil] at hp
    obtain ⟨q, hq, hmap⟩ := List.mem_map.mp hp
    rw [← hmap]
    simp only
    rw [hem q hq]
    simpa [neutral] using clamp01_half
  refine ⟨hem', ?_⟩
  show entriesIn01 (applyEmotionNudges baseline st.2 _ coeffs cap r)
  unfold applyEmotionNudges
  obtain ⟨-, hph⟩ := nudgeDeltaPhase_neutral baseline _ coeffs cap st.2 hem' hcap hcur
  intro p hp
  unfold revertPhase at hp
  obtain ⟨q, hq, hmap⟩ := List.mem_map.mp hp
  cases hb : alookup baseline q.1 with
  | none => rw [hb] at hmap; rw [← hmap]; exact hph _ hq
  | some b =>
      rw [hb] at hmap
      rw [← hmap]
      exact ⟨clamp01_nonneg _, clamp01_le_one _⟩

/-- One no-event turn with a neutral emotion vector maps a trait with baseline
`bv` and current value `cv` to exactly `clamp01 (bv + (cv - bv) * r)`. -/
theorem turnNoEvents_value (baseline : List (String × ℚ))
    (coeffs : List (String × List (String × ℚ)))
    (deltas : List (String × List (String × ℚ))) (cap r decay : ℚ)
    (st : List (String × ℚ) × List (String × ℚ))
    (hem : allNeutral st.1) (hcur : entriesIn01 st.2) (hcap : 0 ≤ cap)
    (t : String) (bv cv : ℚ)
    (hb : alookup baseline t = some bv) (hc : alookup st.2 t = some cv) :
    alookup (turnNoEvents baseline coeffs deltas cap r decay st).2 t =
      some (clamp01 (bv + (cv - bv) * r)) := by
  have hem' : allNeutral (emotionUpdate st.1 [] deltas decay) :=
    (turnNoEvents_inv baseline coeffs deltas cap r decay st hem hcur hcap).1
  show alookup (applyEmotionNudges baseline st.2 _ coeffs cap r) t = _
  unfold applyEmotionNudges
  obtain ⟨hl, -⟩ := nudgeDeltaPhase_neutral baseline _ coeffs cap st.2 hem' hcap hcur
  rw [alookup_revertPhase, hl t, hc, hb]
  rfl

-- =====================================================
-- C5: reversion contracts |current - baseline| across no-event turns
-- =====================================================

/-- C5 (amended): across repeated turns with no detected events *and a neutral
emotion vector* (so that the emotion-driven deltas vanish), for every trait
with a baseline entry, `|current - baseline|` measured after the reversion
step is monotonically non-increasing from turn to turn. -/
theorem traitDistance_nonincreasing_neutral (baseline : List (String × ℚ))
    (coeffs : List (String × List (String × ℚ)))
    (deltas : List (String × List (String × ℚ))) (cap r decay : ℚ)
    (em0 cur0 : List (String × ℚ))
    (hem : allNeutral em0) (hcur : entriesIn01 cur0) (hbase : entriesIn01 baseline)
    (hcap : 0 ≤ cap) (hr0 : 0 ≤ r) (hr1 : r ≤ 1)
    (n : ℕ) (t : String) (bv cn cn1 : ℚ)
    (hb : alookup baseline t = some bv)
    (h1 : alookup ((turnNoEvents baseline coeffs deltas cap r decay)^[n]
        (em0, cur0)).2 t = some cn)
    (h2 : alookup ((turnNoEvents baseline coeffs deltas cap r decay)^[n + 1]
        (em0, cur0)).2 t = some cn1) :
    |cn1 - bv| ≤ |cn - bv| := by
  have hinv : ∀ m : ℕ,
      allNeutral ((turnNoEvents baseline coeffs deltas cap r decay)^[m] (em0, cur0)).1 ∧
        entriesIn01 ((turnNoEvents baseline coeffs deltas cap r decay)^[m] (em0, cur0)).2 := by
    intro m
    induction m with
    | zero => exact ⟨hem, hcur⟩
    | succ m ihm =>
        rw [Function.iterate_succ_apply']
        exact turnNoEvents_inv baseline coeffs deltas cap r decay _ ihm.1 ihm.2 hcap
  have hval := turnNoEvents_value baseline coeffs deltas cap r decay
    ((turnNoEvents baseline coeffs deltas cap r decay)^[n] (em0, cur0))
    (hinv n).1 (hinv n).2 hcap t bv cn hb h1
  rw [Function.iterate_succ_apply', hval] at h2
  obtain ⟨hbv0, hbv1⟩ := hbase _ (alookup_mem hb)
  have hcn1 : cn1 = clamp01 (bv + (cn - bv) * r) := by
    exact (Option.some_injective _ h2).symm
  rw [hcn1]
  calc |clamp01 (bv + (cn - bv) * r) - bv| ≤ |bv + (cn - bv) * r - bv| :=
        abs_clamp01_sub_le _ _ hbv0 hbv1
    _ = |cn - bv| * r := by
        rw [add_sub_cancel_left, abs_mul, abs_of_nonneg hr0]
    _ ≤ |cn - bv| * 1 := by
        exact mul_le_mul_of_nonneg_left hr1 (abs_nonneg _)
    _ = |cn - bv| := mul_one _

/-- Witness for C5 (amended): one neutral no-event turn pulls the single trait
from `1` toward its baseline `1/2`. -/
theorem traitDistance_nonincreasing_neutral_witness :
    allNeutral [("joy", (1:ℚ)/2)] ∧ entriesIn01 [("t", (1:ℚ))] ∧
      entriesIn01 [("t", (1:ℚ)/2)] ∧
      alookup ((turnNoEvents [("t", (1:ℚ)/2)] [] [] (1/20) (17/20) (3/4))^[0]
          ([("joy", 1/2)], [("t", 1)])).2 "t" = some 1 ∧
      alookup ((turnNoEvents [("t", (1:ℚ)/2)] [] [] (1/20) (17/20) (3/4))^[0 + 1]
          ([("joy", 1/2)], [("t", 1)])).2 "t" = some (clamp01 (1/2 + (1 - 1/2) * (17/20))) ∧
      |clamp01 ((1:ℚ)/2 + (1 - 1/2) * (17/20)) - 1/2| ≤ |(1:ℚ) - 1/2| := by
  have hem : allNeutral [("joy", (1:ℚ)/2)] := by
    intro p hp; simp at hp; simp [hp]
  have hcur : entriesIn01 [("t", (1:ℚ))] := by
    intro p hp; simp at hp; simp [hp]
  have hbase : entriesIn01 [("t", (1:ℚ)/2)] := by
    intro p hp; simp at hp; rw [hp]; norm_num
  have h1 : alookup ((turnNoEvents [("t", (1:ℚ)/2)] [] [] (1/20) (17/20) (3/4))^[0]
      ([("joy", 1/2)], [("t", 1)])).2 "t" = some 1 := rfl
  have h2 : alookup ((turnNoEvents [("t", (1:ℚ)/2)] [] [] (1/20) (17/20) (3/4))^[0 + 1]
      ([("joy", 1/2)], [("t", 1)])).2 "t" = some (clamp01 (1/2 + (1 - 1/2) * (17/20))) := by
    rw [Function.iterate_one]
    exact turnNoEvents_value _ _ _ _ _ _ _ hem hcur (by norm_num) _ _ _ rfl rfl
  exact ⟨hem, hcur, hbase, h1, h2,
    traitDistance_nonincreasing_neutral _ _ _ _ _ _ _ _ hem hcur hbase
      (by norm_num) (by norm_num) (by norm_num) 0 "t" _ _ _ rfl h1 h2⟩

set_option maxHeartbeats 1000000 in
/-- Counterexample to C5 as stated: with no detected events but a non-neutral
emotion vector, the decaying emotion still drives trait deltas, and
`|current - baseline|` after the reversion step grows from turn 1 to turn 2. -/
theorem traitDistance_claim_cx :
    alookup ((turnNoEvents [("t", (1:ℚ)/2)] [("t", [("joy", 1)])] [] 1 (9/10) (3/4))^[1]
        ([("joy", 1)], [("t", 1/2)])).2 "t" = some (67/80) ∧
      alookup ((turnNoEvents [("t", (1:ℚ)/2)] [("t", [("joy", 1)])] [] 1 (9/10) (3/4))^[2]
        ([("joy", 1)], [("t", 1/2)])).2 "t" = some (19/20) ∧
      ¬(|(19:ℚ)/20 - 1/2| ≤ |(67:ℚ)/80 - 1/2|) := by
  have hstep1 : turnNoEvents [("t", (1:ℚ)/2)] [("t", [("joy", 1)])] [] 1 (9/10) (3/4)
      ([("joy", 1)], [("t", 1/2)]) = ([("joy", 7/8)], [("t", 67/80)]) := by
    norm_num [turnNoEvents, emotionUpdate, applyEmotionNudges, nudgeDeltaPhase, revertPhase,
      deltaSum, neutral, alookup, aset, clamp01, clamp]
  have hstep2 : turnNoEvents [("t", (1:ℚ)/2)] [("t", [("joy", 1)])] [] 1 (9/10) (3/4)
      ([("joy", 7/8)], [("t", 67/80)]) = ([("joy", 25/32)], [("t", 19/20)]) := by
    norm_num [turnNoEvents, emotionUpdate, applyEmotionNudges, nudgeDeltaPhase, revertPhase,
      deltaSum, neutral, alookup, aset, clamp01, clamp]
  refine ⟨?_, ?_, ?_⟩
  · rw [Function.iterate_one, hstep1]
    rfl
  · rw [show (2:ℕ) = 1 + 1 from rfl, Function.iterate_add_apply,
      Function.iterate_one, hstep1, hstep2]
    rfl
  · rw [abs_of_nonneg (by norm_num : (0:ℚ) ≤ 19/20 - 1/2),
      abs_of_nonneg (by norm_num : (0:ℚ) ≤ 67/80 - 1/2)]
    norm_num

-- =====================================================
-- C7: drift metric
-- =====================================================

theorem alookup_of_mem_nodup {α β : Type} [DecidableEq α] {m : List (α × β)} {k : α} {v : β}
    (hnd : (m.map Prod.fst).Nodup) (hm : (k, v) ∈ m) : alookup m k = some v := by
  induction m with
  | nil => simp at hm
  | cons p rest ih =>
    obtain ⟨k', v'⟩ := p
    rcases List.mem_cons.mp hm with h' | h'
    · rw [← h']
      simp [alookup]
    · have hk : ¬k' = k := by
        intro hkk
        subst hkk
        exact (List.nodup_cons.mp hnd).1
          (List.mem_map.mpr ⟨(k', v), h', rfl⟩)
      simp only [alookup, hk, if_false]
      exact ih (List.nodup_cons.mp hnd).2 h'

theorem driftSqSum_self (baseline : List (String × ℚ))
    (hnd : (baseline.map Prod.fst).Nodup) : driftSqSum baseline baseline = 0 := by
  unfold driftSqSum
  apply List.sum_eq_zero
  intro x hx
  obtain ⟨p, hp, hmap⟩ := List.mem_map.mp hx
  rw [← hmap, alookup_of_mem_nodup hnd (by exact hp)]
  simp

/-- C7: the drift metric of `RuminationEngine.run` equals the Euclidean (L2)
distance between the trait baseline and the `initial_baseline` the run uses;
it is non-negative on every run, and it equals 0 on the run in which
`initial_baseline` is first captured from the current baseline (given that the
baseline keys are unique, as dict keys are). -/
theorem runDriftL2_euclidean (policy : Policy) (places : List (String × Belief))
    (belief_obs : List Obs) (tv : TraitVec) (turn : ℤ) :
    runDriftL2 policy places belief_obs tv turn =
        euclideanDistance tv.baseline
          (ruminationRun policy places belief_obs tv turn).initial_baseline ∧
      0 ≤ runDriftL2 policy places belief_obs tv turn ∧
      ((tv.baseline.map Prod.fst).Nodup → tv.initial_baseline = none →
        runDriftL2 policy places belief_obs tv turn = 0) := by
  refine ⟨rfl, Real.sqrt_nonneg _, ?_⟩
  intro hnd hnone
  unfold runDriftL2 ruminationRun
  rw [hnone]
  simp only [Option.getD_none]
  rw [driftSqSum_self tv.baseline hnd]
  simp [Real.sqrt_zero]

/-- Witness for C7: a first run (no `initial_baseline` yet) over a two-trait
baseline. -/
theorem runDriftL2_euclidean_witness :
    (runDriftL2 ⟨1, 1/2, 1/2⟩ [] []
          ⟨[("warmth", (1:ℚ)/2), ("candor", 1/4)], [("warmth", 1/2), ("candor", 1/4)], none⟩ 20 =
        euclideanDistance [("warmth", (1:ℚ)/2), ("candor", 1/4)]
          (ruminationRun ⟨1, 1/2, 1/2⟩ [] []
            ⟨[("warmth", (1:ℚ)/2), ("candor", 1/4)], [("warmth", 1/2), ("candor", 1/4)], none⟩
            20).initial_baseline) ∧
      (0:ℝ) ≤ runDriftL2 ⟨1, 1/2, 1/2⟩ [] []
          ⟨[("warmth", (1:ℚ)/2), ("candor", 1/4)], [("warmth", 1/2), ("candor", 1/4)], none⟩ 20 ∧
      runDriftL2 ⟨1, 1/2, 1/2⟩ [] []
          ⟨[("warmth", (1:ℚ)/2), ("candor", 1/4)], [("warmth", 1/2), ("candor", 1/4)], none⟩ 20 = 0 := by
  have h := runDriftL2_euclidean ⟨1, 1/2, 1/2⟩ [] []
    ⟨[("warmth", (1:ℚ)/2), ("candor", 1/4)], [("warmth", 1/2), ("candor", 1/4)], none⟩ 20
  exact ⟨h.1, h.2.1, h.2.2 (by simp) rfl⟩

-- =====================================================
-- C4: belief update hysteresis
-- =====================================================

/-- Counterexample to C4 as stated: a belief whose confidence already sits at
the cap `1`.  One matching observation equal to the mean triggers no
contradiction and leaves the mean alone, but the confidence is clamped at `1`
instead of increasing by the reinforcement step `0.02`. -/
theorem updateBelief_claim_cx :
    (updateBelief ⟨1, 1/2, 1/2⟩ [⟨"x", "noise_level", 1/2, ""⟩] 5
        ⟨"x", "noise_level", 1/2, 1, 0, 1, 0, 1⟩).mean = 1/2 ∧
      ¬ contradictionTriggered ⟨1, 1/2, 1/2⟩ [(1:ℚ)/2] (1/2) ∧
      (updateBelief ⟨1, 1/2, 1/2⟩ [⟨"x", "noise_level", 1/2, ""⟩] 5
        ⟨"x", "noise_level", 1/2, 1, 0, 1, 0, 1⟩).confidence = 1 ∧
      (1:ℚ) ≠ 1 + 2/100 := by
  refine ⟨?_, ?_, ?_, by norm_num⟩ <;>
    norm_num [updateBelief, relevantObs, contradictionTriggered, contradictCount,
      clamp01, clamp, List.filter, List.countP, List.countP.go]

/-- C4 (amended): for an existing belief with matching window observations,
an observation contradicts iff `|value - mean| > 0.3`; the mean is blended (and
only then changed) exactly when the contradiction count and rate thresholds
hold simultaneously, with the confidence dropping by the `0.05` step *clamped
to `[0,1]`*; otherwise the mean is untouched and the confidence rises by the
smaller `0.02` step, likewise clamped to `[0,1]`; the decrease step is strictly
larger than the increase step. -/
theorem updateBelief_characterization (policy : Policy) (obs : List Obs) (turn : ℤ)
    (b : Belief) (hrel : relevantObs obs b ≠ []) :
    (contradictionTriggered policy ((relevantObs obs b).map Obs.value) b.mean →
      (updateBelief policy obs turn b).mean =
          clamp01 (b.mean * (1 - policy.smoothing_alpha) +
            (((relevantObs obs b).map Obs.value).sum /
              (((relevantObs obs b).map Obs.value).length : ℚ)) * policy.smoothing_alpha) ∧
        (updateBelief policy obs turn b).confidence = clamp01 (b.confidence - 5/100)) ∧
    (¬ contradictionTriggered policy ((relevantObs obs b).map Obs.value) b.mean →
      (updateBelief policy obs turn b).mean = b.mean ∧
        (updateBelief policy obs turn b).confidence = clamp01 (b.confidence + 2/100)) ∧
    ((updateBelief policy obs turn b).mean ≠ b.mean →
      contradictionTriggered policy ((relevantObs obs b).map Obs.value) b.mean) ∧
    (2:ℚ)/100 < 5/100 := by
  by_cases htrig : contradictionTriggered policy ((relevantObs obs b).map Obs.value) b.mean
  · refine ⟨fun _ => ⟨?_, ?_⟩, fun hn => absurd htrig hn, fun _ => htrig, by norm_num⟩ <;>
      simp [updateBelief, hrel, htrig]
  · have hsame : (updateBelief policy obs turn b).mean = b.mean := by
      simp [updateBelief, hrel, htrig]
    refine ⟨fun ht => absurd ht htrig, fun _ => ⟨hsame, ?_⟩,
      fun hne => absurd hsame hne, by norm_num⟩
    simp [updateBelief, hrel, htrig]

/-- Witness for C4 (amended): a belief at mean `1/2`, confidence `0.6`, hit by
a single far-off observation (value `1`) that is however below the count
threshold, so the reinforcement branch applies. -/
theorem updateBelief_characterization_witness :
    relevantObs [⟨"x", "d", 1, ""⟩] ⟨"x", "d", 1/2, 6/10, 0, 1, 0, 1⟩ ≠ [] ∧
      (¬ contradictionTriggered ⟨2, 6/10, 3/10⟩
          ((relevantObs [⟨"x", "d", 1, ""⟩] ⟨"x", "d", 1/2, 6/10, 0, 1, 0, 1⟩).map Obs.value)
          (1/2) →
        (updateBelief ⟨2, 6/10, 3/10⟩ [⟨"x", "d", 1, ""⟩] 7
            ⟨"x", "d", 1/2, 6/10, 0, 1, 0, 1⟩).mean = 1/2 ∧
          (updateBelief ⟨2, 6/10, 3/10⟩ [⟨"x", "d", 1, ""⟩] 7
            ⟨"x", "d", 1/2, 6/10, 0, 1, 0, 1⟩).confidence = clamp01 (6/10 + 2/100)) := by
  refine ⟨by decide, ?_⟩
  exact (updateBelief_characterization ⟨2, 6/10, 3/10⟩ [⟨"x", "d", 1, ""⟩] 7
    ⟨"x", "d", 1/2, 6/10, 0, 1, 0, 1⟩ (by decide)).2.1

-- =====================================================
-- C3 machinery: grouping lemmas
-- =====================================================

theorem alookup_addObsToGroups_self (gs : List ((String × String) × List Obs))
    (k : String × String) (o : Obs) :
    alookup (addObsToGroups gs k o) k = some (((alookup gs k).getD []) ++ [o]) := by
  unfold addObsToGroups
  cases hg : alookup gs k with
  | some l => simp [alookup_aset_self]
  | none =>
      rw [alookup_append, hg]
      simp [alookup]

theorem alookup_addObsToGroups_ne (gs : List ((String × String) × List Obs))
    (k t : String × String) (o : Obs) (hne : k ≠ t) :
    alookup (addObsToGroups gs k o) t = alookup gs t := by
  unfold addObsToGroups
  cases hg : alookup gs k with
  | some l => exact alookup_aset_ne _ _ _ _ hne
  | none =>
      rw [alookup_append]
      cases ht : alookup gs t with
      | some w => rfl
      | none => simp [alookup, hne]

theorem obsFilter_cons_pos (o : Obs) (rest : List Obs) (e d : String)
    (h : o.entity = e ∧ o.dimension = d) :
    obsFilter (o :: rest) e d = o :: obsFilter rest e d := by
  simp [obsFilter, List.filter, h.1, h.2]

theorem obsFilter_cons_neg (o : Obs) (rest : List Obs) (e d : String)
    (h : ¬(o.entity = e ∧ o.dimension = d)) :
    obsFilter (o :: rest) e d = obsFilter rest e d := by
  simp [obsFilter, List.filter, h]

theorem groupObs_fold_lookup (e d : String) (he : e ≠ "") (hd : d ≠ "") :
    ∀ (obs : List Obs) (gs : List ((String × String) × List Obs)),
      alookup (obs.foldl groupStep gs) (e, d) =
        match alookup gs (e, d) with
        | some l0 => some (l0 ++ obsFilter obs e d)
        | none =>
            if obsFilter obs e d = [] then none else some (obsFilter obs e d) := by
  intro obs
  induction obs with
  | nil =>
      intro gs
      cases hg : alookup gs (e, d) <;> simp [obsFilter, List.filter, hg]
  | cons o rest ih =>
      intro gs
      rw [List.foldl_cons]
      by_cases hdrop : o.entity = "" ∨ o.dimension = ""
      · have hstep : groupStep gs o = gs := by simp [groupStep, hdrop]
        have hp : ¬(o.entity = e ∧ o.dimension = d) := by
          rcases hdrop with h' | h'
          · exact fun hc => he (hc.1 ▸ h')
          · exact fun hc => hd (hc.2 ▸ h')
        rw [hstep, obsFilter_cons_neg _ _ _ _ hp]
        exact ih gs
      · have hstep : groupStep gs o = addObsToGroups gs (o.entity, o.dimension) o := by
          simp [groupStep, hdrop]
        rw [hstep]
        by_cases hk : (o.entity, o.dimension) = (e, d)
        · have hp : o.entity = e ∧ o.dimension = d := by
            exact ⟨congrArg Prod.fst hk, congrArg Prod.snd hk⟩
          rw [obsFilter_cons_pos _ _ _ _ hp, ih, hk, alookup_addObsToGroups_self]
          cases hg : alookup gs (e, d) with
          | some l0 => simp
          | none => simp
        · have hp : ¬(o.entity = e ∧ o.dimension = d) := by
            intro hc
            exact hk (by rw [hc.1, hc.2])
          rw [obsFilter_cons_neg _ _ _ _ hp, ih, alookup_addObsToGroups_ne _ _ _ _ hk]

theorem groupObs_lookup (obs : List Obs) (e d : String) (he : e ≠ "") (hd : d ≠ "") :
    alookup (groupObs obs) (e, d) =
      if obsFilter obs e d = [] then none else some (obsFilter obs e d) := by
  unfold groupObs
  rw [groupObs_fold_lookup e d he hd obs []]
  rfl

theorem alookup_eq_none_iff {α β : Type} [DecidableEq α] (m : List (α × β)) (k : α) :
    alookup m k = none ↔ k ∉ m.map Prod.fst := by
  induction m with
  | nil => simp [alookup]
  | cons p rest ih =>
    obtain ⟨k', v'⟩ := p
    by_cases hk : k' = k
    · subst hk
      simp [alookup]
    · simp only [alookup, if_neg hk, List.map_cons]
      rw [ih]
      constructor
      · intro h hmem
        rcases List.mem_cons.mp hmem with h' | h'
        · exact hk h'.symm
        · exact h h'
      · intro h hmem
        exact h (List.mem_cons_of_mem _ hmem)

theorem keys_aset_of_some {α β : Type} [DecidableEq α] (m : List (α × β)) (k : α) (v : β)
    (h : (alookup m k).isSome) : (aset m k v).map Prod.fst = m.map Prod.fst := by
  induction m with
  | nil => simp [alookup] at h
  | cons p rest ih =>
    obtain ⟨k', v'⟩ := p
    by_cases hk : k' = k
    · simp [aset, hk]
    · simp only [alookup, hk, if_neg hk] at h
      simp [aset, hk, ih h]

theorem groupObs_keys_nodup (obs : List Obs) :
    ((groupObs obs).map Prod.fst).Nodup := by
  unfold groupObs
  refine foldl_inv (fun gs => (gs.map Prod.fst).Nodup) groupStep obs [] (by simp) ?_
  · intro gs o _ hnd
    unfold groupStep
    by_cases hdrop : o.entity = "" ∨ o.dimension = ""
    · simpa [hdrop] using hnd
    · rw [if_neg hdrop]
      unfold addObsToGroups
      cases hg : alookup gs (o.entity, o.dimension) with
      | some l =>
          rw [keys_aset_of_some _ _ _ (by simp [hg])]
          exact hnd
      | none =>
          rw [List.map_append]
          rw [List.nodup_append]
          refine ⟨hnd, by simp, ?_⟩
          intro a ha hb
          simp at hb
          rw [hb] at ha
          exact (alookup_eq_none_iff gs (o.entity, o.dimension)).mp hg ha

theorem mem_addObsToGroups_key {gs : List ((String × String) × List Obs)}
    {k : String × String} {o : Obs} {g : (String × String) × List Obs}
    (hg : g ∈ addObsToGroups gs k o) : g ∈ gs ∨ g.1 = k := by
  unfold addObsToGroups at hg
  cases hl : alookup gs k with
  | some l =>
      rw [hl] at hg
      rcases mem_aset hg with h' | h'
      · exact Or.inl h'
      · exact Or.inr (by rw [h'])
  | none =>
      rw [hl] at hg
      rcases List.mem_append.mp hg with h' | h'
      · exact Or.inl h'
      · simp at h'
        exact Or.inr (by rw [h'])

theorem groupObs_mem_key :
    ∀ (obs : List Obs) (gs : List ((String × String) × List Obs))
      (g : (String × String) × List Obs), g ∈ obs.foldl groupStep gs →
      g ∈ gs ∨ ∃ o ∈ obs, g.1 = (o.entity, o.dimension) := by
  intro obs
  induction obs with
  | nil => intro gs g hg; exact Or.inl hg
  | cons o rest ih =>
      intro gs g hg
      rw [List.foldl_cons] at hg
      rcases ih (groupStep gs o) g hg with h' | h'
      · unfold groupStep at h'
        by_cases hdrop : o.entity = "" ∨ o.dimension = ""
        · rw [if_pos hdrop] at h'
          exact Or.inl h'
        · rw [if_neg hdrop] at h'
          rcases mem_addObsToGroups_key h' with h'' | h''
          · exact Or.inl h''
          · exact Or.inr ⟨o, by simp, h''⟩
      · obtain ⟨o', ho', hkey⟩ := h'
        exact Or.inr ⟨o', by simp [ho'], hkey⟩

-- =====================================================
-- C3 machinery: creation-phase lemmas
-- =====================================================

theorem createBeliefs_lookup_some :
    ∀ (gs : List ((String × String) × List Obs)) (pl : List (String × Belief)) (turn : ℤ)
      (key : String) (b : Belief), alookup pl key = some b →
      alookup (createBeliefs pl gs turn) key = some b := by
  intro gs
  induction gs with
  | nil => intro pl turn key b h; exact h
  | cons g gs ih =>
    intro pl turn key b h
    have hstep : createBeliefs pl (g :: gs) turn = createBeliefs
        (if (alookup pl (beliefKey g.1.1 g.1.2)).isSome then pl
         else if g.2.length < MIN_OBS_TO_CREATE then pl
         else if g.2.map Obs.value = [] then pl
         else pl ++ [(beliefKey g.1.1 g.1.2, mkBelief g.1.1 g.1.2 (g.2.map Obs.value) turn)])
        gs turn := rfl
    rw [hstep]
    by_cases h1 : (alookup pl (beliefKey g.1.1 g.1.2)).isSome
    · rw [if_pos h1]; exact ih pl turn key b h
    · rw [if_neg h1]
      by_cases h2 : g.2.length < MIN_OBS_TO_CREATE
      · rw [if_pos h2]; exact ih pl turn key b h
      · rw [if_neg h2]
        by_cases h3 : g.2.map Obs.value = []
        · rw [if_pos h3]; exact ih pl turn key b h
        · rw [if_neg h3]
          apply ih
          rw [alookup_append, h]

theorem createBeliefs_lookup_aux (e d : String) (l : List Obs) (turn : ℤ) :
    ∀ (gs : List ((String × String) × List Obs)) (pl : List (String × Belief)),
      alookup pl (beliefKey e d) = none →
      (∀ g ∈ gs, beliefKey g.1.1 g.1.2 = beliefKey e d → g = ((e, d), l)) →
      alookup (createBeliefs pl gs turn) (beliefKey e d) =
        if ((e, d), l) ∈ gs ∧ MIN_OBS_TO_CREATE ≤ l.length
        then some (mkBelief e d (l.map Obs.value) turn) else none := by
  intro gs
  induction gs with
  | nil =>
      intro pl h0 _
      simp only [createBeliefs, List.foldl_nil, List.not_mem_nil, false_and, if_false]
      exact h0
  | cons g gs ih =>
    intro pl h0 hone
    have hone' : ∀ g' ∈ gs, beliefKey g'.1.1 g'.1.2 = beliefKey e d → g' = ((e, d), l) :=
      fun g' hg' => hone g' (List.mem_cons_of_mem _ hg')
    have hstep : createBeliefs pl (g :: gs) turn = createBeliefs
        (if (alookup pl (beliefKey g.1.1 g.1.2)).isSome then pl
         else if g.2.length < MIN_OBS_TO_CREATE then pl
         else if g.2.map Obs.value = [] then pl
         else pl ++ [(beliefKey g.1.1 g.1.2, mkBelief g.1.1 g.1.2 (g.2.map Obs.value) turn)])
        gs turn := rfl
    rw [hstep]
    by_cases hg : beliefKey g.1.1 g.1.2 = beliefKey e d
    · have hgeq : g = ((e, d), l) := hone g (List.mem_cons_self _ _) hg
      subst hgeq
      rw [if_neg (by simp [h0])]
      by_cases hlen : (((e, d), l) : (String × String) × List Obs).2.length < MIN_OBS_TO_CREATE
      · rw [if_pos hlen]
        rw [ih pl h0 hone']
        have hnle : ¬MIN_OBS_TO_CREATE ≤ l.length := Nat.not_le.mpr hlen
        rw [if_neg (fun h => hnle h.2), if_neg (fun h => hnle h.2)]
      · rw [if_neg hlen]
        have hle : MIN_OBS_TO_CREATE ≤ l.length := Nat.not_lt.mp hlen
        have hlnil : l ≠ [] := by
          intro h
          rw [h] at hle
          simp [MIN_OBS_TO_CREATE] at hle
        rw [if_neg (by simpa using hlnil)]
        have hlook : alookup
            (pl ++ [(beliefKey e d, mkBelief e d (l.map Obs.value) turn)])
            (beliefKey e d) = some (mkBelief e d (l.map Obs.value) turn) := by
          rw [alookup_append, h0]
          simp [alookup]
        rw [createBeliefs_lookup_some gs _ turn _ _ hlook,
          if_pos ⟨List.mem_cons_self _ _, hle⟩]
    · have hne : g ≠ ((e, d), l) := fun h => hg (by rw [h])
      have hmemiff : (((e, d), l) ∈ g :: gs ∧ MIN_OBS_TO_CREATE ≤ l.length) ↔
          (((e, d), l) ∈ gs ∧ MIN_OBS_TO_CREATE ≤ l.length) := by
        constructor
        · rintro ⟨hm, hl2⟩
          rcases List.mem_cons.mp hm with h' | h'
          · exact absurd h'.symm hne
          · exact ⟨h', hl2⟩
        · rintro ⟨hm, hl2⟩
          exact ⟨List.mem_cons_of_mem _ hm, hl2⟩
      rw [if_congr hmemiff rfl rfl]
      by_cases h1 : (alookup pl (beliefKey g.1.1 g.1.2)).isSome
      · rw [if_pos h1]; exact ih pl h0 hone'
      · rw [if_neg h1]
        by_cases h2 : g.2.length < MIN_OBS_TO_CREATE
        · rw [if_pos h2]; exact ih pl h0 hone'
        · rw [if_neg h2]
          by_cases h3 : g.2.map Obs.value = []
          · rw [if_pos h3]; exact ih pl h0 hone'
          · rw [if_neg h3]
            apply ih _ _ hone'
            rw [alookup_append, h0]
            simp [alookup, hg]

/-- Every group of `groupObs obs` whose belief key collides with
`beliefKey e d` is exactly the `(e, d)` group holding the matching window
observations, provided no other `(entity, dimension)` pair of the window
aliases to the same belief key. -/
theorem groupObs_unique_group (obs : List Obs) (e d : String)
    (he : e ≠ "") (hd : d ≠ "")
    (halias : ∀ o ∈ obs, beliefKey o.entity o.dimension = beliefKey e d →
      o.entity = e ∧ o.dimension = d) :
    ∀ g ∈ groupObs obs, beliefKey g.1.1 g.1.2 = beliefKey e d →
      g = ((e, d), obsFilter obs e d) := by
  intro g hg hbk
  rcases groupObs_mem_key obs [] g hg with h' | h'
  · simp at h'
  · obtain ⟨o, ho, hkey⟩ := h'
    have hoed : o.entity = e ∧ o.dimension = d := by
      apply halias o ho
      rw [show o.entity = g.1.1 from (congrArg Prod.fst hkey).symm,
        show o.dimension = g.1.2 from (congrArg Prod.snd hkey).symm]
      exact hbk
    have hg1 : g.1 = (e, d) := by rw [hkey, hoed.1, hoed.2]
    have hlook : alookup (groupObs obs) (e, d) = some g.2 := by
      rw [← hg1]
      exact alookup_of_mem_nodup (groupObs_keys_nodup obs) (by simpa using hg)
    rw [groupObs_lookup obs e d he hd] at hlook
    by_cases hnil : obsFilter obs e d = []
    · rw [if_pos hnil] at hlook
      exact absurd hlook (by simp)
    · rw [if_neg hnil] at hlook
      have hg2 : g.2 = obsFilter obs e d := (Option.some_injective _ hlook).symm
      calc g = (g.1, g.2) := rfl
        _ = ((e, d), obsFilter obs e d) := by rw [hg1, hg2]

/-- C3: during consolidation, a new belief for `(entity, dimension)` is created
iff the window group for that key holds at least `MIN_OBS_TO_CREATE = 2`
observations and no belief already exists under that key (aliasing-free keys);
the created belief's mean is the clamped arithmetic mean of the observed
values and its confidence is the fixed initial `0.6` (see `mkBelief`). -/
theorem rumination_creation_iff (places : List (String × Belief)) (obs : List Obs)
    (turn : ℤ) (e d : String) (he : e ≠ "") (hd : d ≠ "")
    (halias : ∀ o ∈ obs, beliefKey o.entity o.dimension = beliefKey e d →
      o.entity = e ∧ o.dimension = d) :
    (alookup places (beliefKey e d) = none →
      alookup (createBeliefs places (groupObs obs) turn) (beliefKey e d) =
        if MIN_OBS_TO_CREATE ≤ (obsFilter obs e d).length
        then some (mkBelief e d ((obsFilter obs e d).map Obs.value) turn)
        else none) ∧
    (∀ b, alookup places (beliefKey e d) = some b →
      alookup (createBeliefs places (groupObs obs) turn) (beliefKey e d) = some b) := by
  constructor
  · intro h0
    rw [createBeliefs_lookup_aux e d (obsFilter obs e d) turn (groupObs obs) places h0
      (groupObs_unique_group obs e d he hd halias)]
    by_cases hlen : MIN_OBS_TO_CREATE ≤ (obsFilter obs e d).length
    · have hnil : obsFilter obs e d ≠ [] := by
        intro h
        rw [h] at hlen
        simp [MIN_OBS_TO_CREATE] at hlen
      have hmem : ((e, d), obsFilter obs e d) ∈ groupObs obs := by
        apply alookup_mem
        rw [groupObs_lookup obs e d he hd, if_neg hnil]
      rw [if_pos ⟨hmem, hlen⟩, if_pos hlen]
    · rw [if_neg (fun h => hlen h.2), if_neg hlen]
  · intro b hb
    exact createBeliefs_lookup_some (groupObs obs) places turn _ b hb

/-- Witness for C3: two matching observations on a fresh key create the belief. -/
theorem rumination_creation_iff_witness :
    ("France Cafe" ≠ "" ∧ "noise_level" ≠ "" ∧
        alookup ([] : List (String × Belief)) (beliefKey "France Cafe" "noise_level") = none) ∧
      alookup (createBeliefs []
          (groupObs [⟨"France Cafe", "noise_level", 2/10, ""⟩,
            ⟨"France Cafe", "noise_level", 3/10, ""⟩]) 20)
          (beliefKey "France Cafe" "noise_level") =
        if MIN_OBS_TO_CREATE ≤ (obsFilter [⟨"France Cafe", "noise_level", 2/10, ""⟩,
            ⟨"France Cafe", "noise_level", 3/10, ""⟩] "France Cafe" "noise_level").length
        then some (mkBelief "France Cafe" "noise_level"
          ((obsFilter [⟨"France Cafe", "noise_level", 2/10, ""⟩,
            ⟨"France Cafe", "noise_level", 3/10, ""⟩] "France Cafe" "noise_level").map
            Obs.value) 20)
        else none :=
  ⟨⟨by decide, by decide, rfl⟩,
    (rumination_creation_iff [] [⟨"France Cafe", "noise_level", 2/10, ""⟩,
        ⟨"France Cafe", "noise_level", 3/10, ""⟩] 20 "France Cafe" "noise_level"
      (by decide) (by decide) (by decide)).1 rfl⟩

-- =====================================================
-- C10: a belief created in phase 1 is re-processed by phase 2 of the same run
-- =====================================================

theorem alookup_map_value {α β γ : Type} [DecidableEq α] (m : List (α × β)) (k : α)
    (f : β → γ) :
    alookup (m.map (fun p => (p.1, f p.2))) k = (alookup m k).map f := by
  induction m with
  | nil => simp [alookup]
  | cons p rest ih =>
    by_cases hk : p.1 = k
    · simp [alookup, hk]
    · simpa [alookup, hk] using ih

/-- C10: a belief created by the creation phase is iterated again by the update
phase of the same `RuminationEngine.run` against the same window observations,
so right after the run its confidence is not the initial `0.6` any more; when
the window observations do not meet both contradiction thresholds it is the
initial value plus the reinforcement step, `0.6 + 0.02`. -/
theorem ruminationRun_reclassifies_created (policy : Policy)
    (places : List (String × Belief)) (obs : List Obs) (tv : TraitVec) (turn : ℤ)
    (e d : String) (he : e ≠ "") (hd : d ≠ "")
    (halias : ∀ o ∈ obs, beliefKey o.entity o.dimension = beliefKey e d →
      o.entity = e ∧ o.dimension = d)
    (h0 : alookup places (beliefKey e d) = none)
    (hlen : MIN_OBS_TO_CREATE ≤ (obsFilter obs e d).length) :
    alookup (ruminationRun policy places obs tv turn).places (beliefKey e d) =
        some (updateBelief policy obs turn
          (mkBelief e d ((obsFilter obs e d).map Obs.value) turn)) ∧
      (updateBelief policy obs turn
        (mkBelief e d ((obsFilter obs e d).map Obs.value) turn)).confidence ≠ 6/10 ∧
      (¬ contradictionTriggered policy ((obsFilter obs e d).map Obs.value)
          (mkBelief e d ((obsFilter obs e d).map Obs.value) turn).mean →
        (updateBelief policy obs turn
          (mkBelief e d ((obsFilter obs e d).map Obs.value) turn)).confidence =
          6/10 + 2/100) := by
  have hnil : obsFilter obs e d ≠ [] := by
    intro h
    rw [h] at hlen
    simp [MIN_OBS_TO_CREATE] at hlen
  have hcreate : alookup (createBeliefs places (groupObs obs) turn) (beliefKey e d) =
      some (mkBelief e d ((obsFilter obs e d).map Obs.value) turn) := by
    rw [createBeliefs_lookup_aux e d (obsFilter obs e d) turn (groupObs obs) places h0
      (groupObs_unique_group obs e d he hd halias)]
    have hmem : ((e, d), obsFilter obs e d) ∈ groupObs obs := by
      apply alookup_mem
      rw [groupObs_lookup obs e d he hd, if_neg hnil]
    rw [if_pos ⟨hmem, hlen⟩]
  have hrel : relevantObs obs (mkBelief e d ((obsFilter obs e d).map Obs.value) turn) =
      obsFilter obs e d := rfl
  have hrelne : relevantObs obs (mkBelief e d ((obsFilter obs e d).map Obs.value) turn) ≠ [] := by
    rw [hrel]; exact hnil
  refine ⟨?_, ?_, ?_⟩
  · show alookup ((createBeliefs places (groupObs obs) turn).map
        (fun p => (p.1, updateBelief policy obs turn p.2))) (beliefKey e d) = _
    rw [alookup_map_value, hcreate]
    rfl
  · by_cases htrig : contradictionTriggered policy
        ((relevantObs obs (mkBelief e d ((obsFilter obs e d).map Obs.value) turn)).map Obs.value)
        (mkBelief e d ((obsFilter obs e d).map Obs.value) turn).mean
    · have hconf : (updateBelief policy obs turn
          (mkBelief e d ((obsFilter obs e d).map Obs.value) turn)).confidence =
          clamp01 (6/10 - 5/100) := by
        simp only [updateBelief]
        rw [if_neg hrelne, if_pos htrig]
        rfl
      rw [hconf]
      norm_num [clamp01, clamp]
    · have hconf : (updateBelief policy obs turn
          (mkBelief e d ((obsFilter obs e d).map Obs.value) turn)).confidence =
          clamp01 (6/10 + 2/100) := by
        simp only [updateBelief]
        rw [if_neg hrelne, if_neg htrig]
        rfl
      rw [hconf]
      norm_num [clamp01, clamp]
  · intro htrig
    have htrig' : ¬ contradictionTriggered policy
        ((relevantObs obs (mkBelief e d ((obsFilter obs e d).map Obs.value) turn)).map Obs.value)
        (mkBelief e d ((obsFilter obs e d).map Obs.value) turn).mean := by
      rw [hrel]
      exact htrig
    have hconf : (updateBelief policy obs turn
        (mkBelief e d ((obsFilter obs e d).map Obs.value) turn)).confidence =
        clamp01 (6/10 + 2/100) := by
      simp only [updateBelief]
      rw [if_neg hrelne, if_neg htrig']
      rfl
    rw [hconf]
    norm_num [clamp01, clamp]

/-- Witness for C10: two identical quiet observations create a belief whose
confidence right after the same run is not `0.6`. -/
theorem ruminationRun_reclassifies_created_witness :
    ("France Cafe" ≠ "" ∧ "noise_level" ≠ "" ∧
        alookup ([] : List (String × Belief)) (beliefKey "France Cafe" "noise_level") = none ∧
        MIN_OBS_TO_CREATE ≤ (obsFilter [⟨"France Cafe", "noise_level", 2/10, ""⟩,
          ⟨"France Cafe", "noise_level", 2/10, ""⟩] "France Cafe" "noise_level").length) ∧
      (updateBelief ⟨1, 6/10, 3/10⟩ [⟨"France Cafe", "noise_level", 2/10, ""⟩,
          ⟨"France Cafe", "noise_level", 2/10, ""⟩] 20
        (mkBelief "France Cafe" "noise_level"
          ((obsFilter [⟨"France Cafe", "noise_level", 2/10, ""⟩,
            ⟨"France Cafe", "noise_level", 2/10, ""⟩] "France Cafe" "noise_level").map
            Obs.value) 20)).confidence ≠ 6/10 :=
  ⟨⟨by decide, by decide, rfl, by decide⟩,
    (ruminationRun_reclassifies_created ⟨1, 6/10, 3/10⟩ []
      [⟨"France Cafe", "noise_level", 2/10, ""⟩, ⟨"France Cafe", "noise_level", 2/10, ""⟩]
      ⟨[], [], none⟩ 20 "France Cafe" "noise_level" (by decide) (by decide) (by decide)
      rfl (by decide)).2.1⟩

-- =====================================================
-- C8: the France Cafe / quiet end-to-end extraction scenario
-- =====================================================

/-- C8: on "I visited France Cafe again today. It was very quiet this time."
with an empty context, the extractor resolves the focus entity to
"France Cafe", emits exactly one belief observation on `noise_level` with the
quiet value `0.2`, and a note mentioning the entity and "quiet". -/
theorem extract_france_cafe_quiet :
    (extract "I visited France Cafe again today. It was very quiet this time."
        ⟨none⟩ []).focused_entity = some "France Cafe" ∧
      (extract "I visited France Cafe again today. It was very quiet this time."
        ⟨none⟩ []).belief_observations =
        [⟨"France Cafe", "noise_level", 2/10,
          "I visited France Cafe again today. It was very quiet this time."⟩] ∧
      containsSub "France Cafe"
        (extract "I visited France Cafe again today. It was very quiet this time."
          ⟨none⟩ []).notes = true ∧
      containsSub "quiet"
        (extract "I visited France Cafe again today. It was very quiet this time."
          ⟨none⟩ []).notes = true :=
  ⟨rfl, rfl, by decide, by decide⟩

-- =====================================================
-- C9: deictic markers are raw substring tests
-- =====================================================

/-- C9: the deictic markers are tested as raw substrings of the lower-cased
text, so any message that contains "it" anywhere (for instance inside
"visited"), captures no explicit `"<token> cafe"` entity, and carries a noisy
cue is attributed to the context's `last_entity_focus`. -/
theorem extract_deixis_substring (t : String) (prev : String)
    (taxonomy : List (String × List String))
    (hnocafe : cafeScan (tokenize (lowerStr t)) = none)
    (hit : containsSub "it" (lowerStr t) = true) :
    (extract t ⟨some prev⟩ taxonomy).focused_entity = some prev ∧
      (anyKw noisyCues (lowerStr t) = true →
        (extract t ⟨some prev⟩ taxonomy).belief_observations =
          [⟨prev, "noise_level", 8/10, t⟩]) := by
  have hdeixis : anyKw deixisMarkers (lowerStr t) = true := by
    apply List.any_eq_true.mpr
    exact ⟨"it", by decide, hit⟩
  have hfocus : (match cafeScan (tokenize (lowerStr t)) with
      | some e => some e
      | none =>
          if anyKw deixisMarkers (lowerStr t) then (some prev : Option String)
          else none) = some prev := by
    rw [hnocafe]
    simp [hdeixis]
  constructor
  · show (match cafeScan (tokenize (lowerStr t)) with
      | some e => some e
      | none => if anyKw deixisMarkers (lowerStr t) then Context.last_entity_focus ⟨some prev⟩
          else none) = some prev
    exact hfocus
  · intro hnoisy
    show (match (match cafeScan (tokenize (lowerStr t)) with
        | some e => some e
        | none => if anyKw deixisMarkers (lowerStr t) then Context.last_entity_focus ⟨some prev⟩
            else none) with
      | none => (([] : List Obs), "")
      | some e =>
          if anyKw noisyCues (lowerStr t) then
            ([⟨e, "noise_level", 8/10, t⟩], e ++ " was noisy/loud.")
          else if anyKw quietCues (lowerStr t) then
            ([⟨e, "noise_level", 2/10, t⟩], e ++ " was quiet/calm.")
          else ([], "")).1 = [⟨prev, "noise_level", 8/10, t⟩]
    rw [hfocus]
    simp [hnoisy]

/-- Witness for C9: "it" hides inside "visited", the noisy cues "music" and
"blasting" are present, and the observation lands on the previous focus. -/
theorem extract_deixis_substring_witness :
    (cafeScan (tokenize (lowerStr "I visited the library. Music was blasting.")) = none ∧
        containsSub "it" (lowerStr "I visited the library. Music was blasting.") = true) ∧
      (extract "I visited the library. Music was blasting." ⟨some "France Cafe"⟩ []).focused_entity =
        some "France Cafe" ∧
      (anyKw noisyCues (lowerStr "I visited the library. Music was blasting.") = true →
        (extract "I visited the library. Music was blasting." ⟨some "France Cafe"⟩
            []).belief_observations =
          [⟨"France Cafe", "noise_level", 8/10, "I visited the library. Music was blasting."⟩]) :=
  ⟨⟨by decide, by decide⟩,
    extract_deixis_substring "I visited the library. Music was blasting." "France Cafe" []
      (by decide) (by decide)⟩

end StableMind
